import Mathlib

set_option linter.unusedVariables false

/-!
Formal model of the screenshot-bridge server core: the in-memory screenshot
store with its delivery state machine and project partitioning (src/store.ts),
the image size-targeting pipeline (src/image.ts with the constants of
src/config.ts), and the WebSocket request/response correlation protocol
(src/ws.ts).

The store is a JS `Map<string, Screenshot>` keyed by `id` plus a
`Set<string>` of known projects.  Both preserve insertion order, so they are
modelled as insertion-ordered lists: the screenshot list holds the map's
values (one entry per id), the project list holds the set's elements (no
duplicates by construction of the only insertion point).  Effects that the
TypeScript code obtains from its environment — `randomUUID()`,
`new Date().toISOString()`, `getGitContext()` — are passed as explicit
arguments, and disk persistence (`saveToDisk`/`removeFromDisk`), which never
feeds back into the in-memory state, is not modelled.

The repository snapshot contains a stale revision of `store.ts` (a 4-argument
`addScreenshot` without the `source`/`annotations` fields), while its callers
(`mcp.ts`, `routes.ts`) and its unit tests reference the current 6-argument
store with `source`, `annotations` and a text-query filter.  Definitions
below that depend on those missing parts carry a doc comment starting
`Modelled from the spec:`; everything else is translated from the source
files directly.
-/

namespace Bridge

/-- Git context captured at creation time (src/git.ts `GitContext`). -/
structure GitContext where
  branch : Option String
  commit : Option String
  commitShort : Option String
  repoRoot : Option String
  deriving DecidableEq, Repr

/-- Delivery status of a screenshot (`"pending" | "delivered"` in store.ts). -/
inductive Status where
  | pending
  | delivered
  deriving DecidableEq, Repr

/-- Modelled from the spec: origin of a screenshot (`"user" | "agent"`); the
field is present in the current store (tested by store.test.ts and set by
mcp.ts) but absent from the stale store.ts revision in the snapshot. -/
inductive Source where
  | user
  | agent
  deriving DecidableEq, Repr

/-- A stored screenshot record (store.ts `Screenshot`), extended with the
`source` and `annotations` fields of the current store interface. -/
structure Screenshot where
  id : String
  projectId : String
  prompt : String
  description : Option String
  annotations : Option String
  imageBase64 : String
  mimeType : String
  status : Status
  source : Source
  createdAt : String
  deliveredAt : Option String
  git : Option GitContext
  deriving DecidableEq, Repr

/-- Projection of a screenshot without its image payload
(`Omit<Screenshot, "imageBase64">` in store.ts). -/
structure ScreenshotMeta where
  id : String
  projectId : String
  prompt : String
  description : Option String
  annotations : Option String
  mimeType : String
  status : Status
  source : Source
  createdAt : String
  deliveredAt : Option String
  git : Option GitContext
  deriving DecidableEq, Repr

/-- Drop the `imageBase64` field (the `({ imageBase64: _, ...rest })`
projection in store.ts). -/
def toMeta (s : Screenshot) : ScreenshotMeta :=
  { id := s.id
    projectId := s.projectId
    prompt := s.prompt
    description := s.description
    annotations := s.annotations
    mimeType := s.mimeType
    status := s.status
    source := s.source
    createdAt := s.createdAt
    deliveredAt := s.deliveredAt
    git := s.git }

/-- The in-memory store state: the `screenshots` map's values in insertion
order and the `knownProjects` set in insertion order. -/
structure Store where
  screenshots : List Screenshot
  knownProjects : List String
  deriving DecidableEq, Repr

/-- JS string truthiness for an optional string: `null`/`undefined` and the
empty string are falsy. -/
def optTruthy : Option String → Bool
  | none => false
  | some s => !(s == "")

/-- `Map.set(s.id, s)` on the value list: replace the entry already keyed by
`s.id` in place, otherwise append. -/
def mapSet (l : List Screenshot) (s : Screenshot) : List Screenshot :=
  if l.any (fun t => t.id == s.id) then
    l.map (fun t => if t.id == s.id then s else t)
  else l ++ [s]

/-- store.ts `addScreenshot`.  The fresh uuid `id`, the timestamp `now` and
the ambient `gitCtx` are explicit arguments.  Modelled from the spec: the
initial status (`delivered` if `source = agent` else `pending`), the matching
`deliveredAt`, and the `annotations`/`source` fields follow the spec's §4.1
`create` operation and the store unit tests; the stale store.ts revision in
the snapshot lacks these two parameters and always starts `pending`.
`source` defaults to `user` at the TypeScript call sites that omit it. -/
def addScreenshot (st : Store) (projectId imageBase64 mimeType prompt : String)
    (annotations : Option String) (source : Source) (id now : String)
    (gitCtx : GitContext) : Screenshot × Store :=
  let s : Screenshot :=
    { id := id
      projectId := projectId
      prompt := prompt
      description := none
      annotations := annotations
      imageBase64 := imageBase64
      mimeType := mimeType
      status := if source == Source.agent then Status.delivered else Status.pending
      source := source
      createdAt := now
      deliveredAt := if source == Source.agent then some now else none
      git := if optTruthy gitCtx.branch || optTruthy gitCtx.commit then some gitCtx
             else none }
  (s, { screenshots := mapSet st.screenshots s
        knownProjects :=
          if st.knownProjects.contains projectId then st.knownProjects
          else st.knownProjects ++ [projectId] })

/-- store.ts `getScreenshot`: `screenshots.get(id)`. -/
def getScreenshot (st : Store) (id : String) : Option Screenshot :=
  st.screenshots.find? (fun s => s.id == id)

/-- store.ts `getProjects`: `[...knownProjects].sort()` (lexicographic). -/
def getProjects (st : Store) : List String :=
  st.knownProjects.insertionSort (fun a b => a ≤ b)

/-- store.ts `isNewProject`: `!knownProjects.has(projectId)`. -/
def isNewProject (st : Store) (projectId : String) : Bool :=
  !(st.knownProjects.contains projectId)

/-- Comparator `(a, b) => b.createdAt.localeCompare(a.createdAt)` (newest
first); on the store's ISO-8601 timestamps the default locale collation
coincides with codepoint order on strings. -/
def createdDesc (a b : Screenshot) : Prop :=
  b.createdAt ≤ a.createdAt

/-- Comparator `(a, b) => a.createdAt.localeCompare(b.createdAt)` (oldest
first). -/
def createdAsc (a b : Screenshot) : Prop :=
  a.createdAt ≤ b.createdAt

instance : DecidableRel createdDesc :=
  fun a b => inferInstanceAs (Decidable (b.createdAt ≤ a.createdAt))

instance : DecidableRel createdAsc :=
  fun a b => inferInstanceAs (Decidable (a.createdAt ≤ b.createdAt))

instance : IsTrans Screenshot createdDesc :=
  ⟨fun _ _ _ h1 h2 => le_trans h2 h1⟩

instance : IsTotal Screenshot createdDesc :=
  ⟨fun a b => (le_total b.createdAt a.createdAt).imp id id⟩

instance : IsTrans Screenshot createdAsc :=
  ⟨fun _ _ _ h1 h2 => le_trans h1 h2⟩

instance : IsTotal Screenshot createdAsc :=
  ⟨fun a b => (le_total a.createdAt b.createdAt).imp id id⟩

/-- store.ts `listScreenshots`: the project's records newest-created first,
without the image payload.  JS `Array.prototype.sort` is a stable sort,
modelled by `List.insertionSort`. -/
def listScreenshots (st : Store) (projectId : String) : List ScreenshotMeta :=
  ((st.screenshots.filter (fun s => s.projectId == projectId)).insertionSort
      createdDesc).map toMeta

/-- store.ts `getPending`: the project's pending records oldest-created
first, with their image payload. -/
def getPending (st : Store) (projectId : String) : List Screenshot :=
  (st.screenshots.filter
      (fun s => s.projectId == projectId && s.status == Status.pending)).insertionSort
    createdAsc

/-- store.ts `markDelivered`: no-op when `id` is absent, otherwise set the
status and overwrite `deliveredAt` with the current time `now`. -/
def markDelivered (st : Store) (id now : String) : Store :=
  { st with
    screenshots := st.screenshots.map (fun s =>
      if s.id == id then { s with status := Status.delivered, deliveredAt := some now }
      else s) }

/-- store.ts `setDescription`: `false` when `id` is absent, otherwise
overwrite the description. -/
def setDescription (st : Store) (id text : String) : Bool × Store :=
  if st.screenshots.any (fun s => s.id == id) then
    (true,
      { st with
        screenshots := st.screenshots.map (fun s =>
          if s.id == id then { s with description := some text } else s) })
  else (false, st)

/-- store.ts `deleteScreenshot`: `false` when `id` is absent, otherwise
remove the map entry keyed by `id`. -/
def deleteScreenshot (st : Store) (id : String) : Bool × Store :=
  if st.screenshots.any (fun s => s.id == id) then
    (true, { st with screenshots := st.screenshots.filter (fun s => !(s.id == id)) })
  else (false, st)

/-- store.ts `clearAll`: delete every record of the project from the map and
return how many were removed.  The source deletes each matching record by its
`id`; since ids are unique map keys this retains exactly the records of the
other projects. -/
def clearAll (st : Store) (projectId : String) : Nat × Store :=
  let toRemove := st.screenshots.filter (fun s => s.projectId == projectId)
  (toRemove.length,
    { st with screenshots := st.screenshots.filter (fun s => !(s.projectId == projectId)) })

/-- Number of records stored under a project (the store's per-project record
count, as used by the project-isolation property). -/
def countProject (st : Store) (projectId : String) : Nat :=
  (st.screenshots.filter (fun s => s.projectId == projectId)).length

/-- Store states reachable from the empty store by the in-process mutation
operations (`loadFromDisk`, which replays previously persisted records, is
filesystem I/O and outside the model). -/
inductive Reachable : Store → Prop where
  | empty : Reachable { screenshots := [], knownProjects := [] }
  | add (st : Store) (projectId imageBase64 mimeType prompt : String)
      (annotations : Option String) (source : Source) (id now : String)
      (gitCtx : GitContext) : Reachable st →
      Reachable (addScreenshot st projectId imageBase64 mimeType prompt
        annotations source id now gitCtx).2
  | deliver (st : Store) (id now : String) : Reachable st →
      Reachable (markDelivered st id now)
  | describe (st : Store) (id text : String) : Reachable st →
      Reachable (setDescription st id text).2
  | del (st : Store) (id : String) : Reachable st →
      Reachable (deleteScreenshot st id).2
  | clear (st : Store) (projectId : String) : Reachable st →
      Reachable (clearAll st projectId).2

/-- Per-record well-formedness: agent-sourced records are delivered, and
`deliveredAt` is non-null exactly on delivered records. -/
def recordWF (s : Screenshot) : Prop :=
  (s.source = Source.agent → s.status = Status.delivered) ∧
  (s.deliveredAt ≠ none ↔ s.status = Status.delivered)

/-- Store well-formedness: every stored record is well-formed. -/
def StoreWF (st : Store) : Prop :=
  ∀ s ∈ st.screenshots, recordWF s

theorem mem_mapSet {l : List Screenshot} {s t : Screenshot} (h : t ∈ mapSet l s) :
    t ∈ l ∨ t = s := by
  unfold mapSet at h
  split at h
  · rcases List.mem_map.mp h with ⟨u, hu, heq⟩
    by_cases hid : (u.id == s.id) = true
    · right
      rw [if_pos hid] at heq
      exact heq.symm
    · left
      rw [if_neg hid] at heq
      exact heq ▸ hu
  · rcases List.mem_append.mp h with h1 | h1
    · exact Or.inl h1
    · exact Or.inr (List.mem_singleton.mp h1)

theorem recordWF_addScreenshot (st : Store) (projectId imageBase64 mimeType prompt : String)
    (annotations : Option String) (source : Source) (id now : String) (gitCtx : GitContext) :
    recordWF (addScreenshot st projectId imageBase64 mimeType prompt annotations source
      id now gitCtx).1 := by
  cases source <;> simp [recordWF, addScreenshot]

theorem reachable_storeWF {st : Store} (h : Reachable st) : StoreWF st := by
  induction h with
  | empty => intro s hs; simp at hs
  | add st projectId imageBase64 mimeType prompt annotations source id now gitCtx _ ih =>
    intro s hs
    rcases mem_mapSet hs with hmem | rfl
    · exact ih s hmem
    · exact recordWF_addScreenshot st projectId imageBase64 mimeType prompt annotations
        source id now gitCtx
  | deliver st id now _ ih =>
    intro s hs
    rcases List.mem_map.mp hs with ⟨u, hu, rfl⟩
    by_cases hid : (u.id == id) = true
    · simp [hid, recordWF]
    · simp only [hid, if_false, Bool.false_eq_true]
      exact ih u hu
  | describe st id text _ ih =>
    intro s hs
    unfold setDescription at hs
    split at hs
    · rcases List.mem_map.mp hs with ⟨u, hu, rfl⟩
      by_cases hid : (u.id == id) = true
      · have := ih u hu
        simp only [hid, if_true]
        simpa [recordWF] using this
      · simp only [hid, if_false, Bool.false_eq_true]
        exact ih u hu
    · exact ih s hs
  | del st id _ ih =>
    intro s hs
    unfold deleteScreenshot at hs
    split at hs
    · exact ih s (List.mem_filter.mp hs).1
    · exact ih s hs
  | clear st projectId _ ih =>
    intro s hs
    exact ih s (List.mem_filter.mp hs).1

theorem find?_map_id_preserving (id : String) (f : Screenshot → Screenshot)
    (hf : ∀ s, (f s).id = s.id) (l : List Screenshot) :
    (l.map f).find? (fun s => s.id == id) = (l.find? (fun s => s.id == id)).map f := by
  induction l with
  | nil => rfl
  | cons a l ih =>
    rw [List.map_cons, List.find?_cons, List.find?_cons, hf a]
    by_cases h : (a.id == id) = true
    · simp [h]
    · simp [h, ih]

theorem getScreenshot_markDelivered (st : Store) (id now : String) :
    getScreenshot (markDelivered st id now) id =
      (getScreenshot st id).map (fun s =>
        { s with status := Status.delivered, deliveredAt := some now }) := by
  unfold getScreenshot markDelivered
  rw [find?_map_id_preserving id _ (fun s => by by_cases h : (s.id == id) = true <;> simp [h])]
  cases hfind : st.screenshots.find? (fun s => s.id == id) with
  | none => rfl
  | some s =>
    have hs := List.find?_some hfind
    simp at hs
    simp [Option.map, hs]

/-- C1: a record created with `source = agent` starts delivered with a
non-null `deliveredAt` (set to the creation time), and a record created with
`source = user` (the default when the argument is omitted) starts pending
with a null `deliveredAt`. -/
theorem create_source_determines_status (st : Store)
    (projectId imageBase64 mimeType prompt : String) (annotations : Option String)
    (id now : String) (gitCtx : GitContext) :
    ((addScreenshot st projectId imageBase64 mimeType prompt annotations
        Source.agent id now gitCtx).1.status = Status.delivered ∧
      (addScreenshot st projectId imageBase64 mimeType prompt annotations
        Source.agent id now gitCtx).1.deliveredAt = some now ∧
      (addScreenshot st projectId imageBase64 mimeType prompt annotations
        Source.agent id now gitCtx).1.deliveredAt ≠ none) ∧
    ((addScreenshot st projectId imageBase64 mimeType prompt annotations
        Source.user id now gitCtx).1.status = Status.pending ∧
      (addScreenshot st projectId imageBase64 mimeType prompt annotations
        Source.user id now gitCtx).1.deliveredAt = none) := by
  simp [addScreenshot]

/-- C8: in every reachable store state, `deliveredAt` is non-null iff the
status is `delivered` (the invariant is established by `addScreenshot` and
preserved by every store operation, which is what reachability ranges over);
and once `markDelivered id` succeeds on an existing record, the record stays
`delivered` with a non-null `deliveredAt` under a repeated `markDelivered`. -/
theorem deliveredAt_iff_delivered {st : Store} (h : Reachable st) :
    (∀ s ∈ st.screenshots, s.deliveredAt ≠ none ↔ s.status = Status.delivered) ∧
    (∀ id now1 now2 s0, getScreenshot st id = some s0 →
      ∀ s1, getScreenshot (markDelivered st id now1) id = some s1 →
        (s1.status = Status.delivered ∧ s1.deliveredAt ≠ none) ∧
        ∀ s2, getScreenshot (markDelivered (markDelivered st id now1) id now2) id = some s2 →
          s2.status = Status.delivered ∧ s2.deliveredAt ≠ none) := by
  constructor
  · intro s hs
    exact (reachable_storeWF h s hs).2
  · intro id now1 now2 s0 h0 s1 h1
    rw [getScreenshot_markDelivered, h0] at h1
    constructor
    · cases h1
      exact ⟨rfl, by simp⟩
    · intro s2 h2
      rw [getScreenshot_markDelivered, getScreenshot_markDelivered, h0] at h2
      cases h2
      exact ⟨rfl, by simp⟩

/-- C8 witness: a concrete reachable one-record store on which the invariant
and the repeated-`markDelivered` property hold. -/
theorem deliveredAt_iff_delivered_witness :
    Reachable (addScreenshot { screenshots := [], knownProjects := [] }
      "proj" "img" "image/png" "hello" none Source.user "id1" "T1"
      ⟨none, none, none, none⟩).2 ∧
    (∀ s ∈ (addScreenshot { screenshots := [], knownProjects := [] }
      "proj" "img" "image/png" "hello" none Source.user "id1" "T1"
      ⟨none, none, none, none⟩).2.screenshots,
        s.deliveredAt ≠ none ↔ s.status = Status.delivered) :=
  ⟨Reachable.add _ _ _ _ _ _ _ _ _ _ Reachable.empty,
    (deliveredAt_iff_delivered
      (Reachable.add _ _ _ _ _ _ _ _ _ _ Reachable.empty)).1⟩

/-- C10: `markDelivered` on an existing record — in particular an
already-delivered one — overwrites `deliveredAt` with the current call's
time: the status is fixed at `delivered`, but whenever the stored
`deliveredAt` differs from the new time, the field does not stay unchanged. -/
theorem markDelivered_overwrites_deliveredAt (st : Store) (id now : String)
    (s : Screenshot) (h : getScreenshot st id = some s) :
    getScreenshot (markDelivered st id now) id =
      some { s with status := Status.delivered, deliveredAt := some now } ∧
    (s.deliveredAt ≠ some now →
      ({ s with status := Status.delivered, deliveredAt := some now } :
        Screenshot).deliveredAt ≠ s.deliveredAt) := by
  constructor
  · rw [getScreenshot_markDelivered, h]
    rfl
  · intro hne
    simpa using fun hc => hne hc.symm

/-- C10 witness: marking a record delivered twice with distinct timestamps
moves `deliveredAt` from `some "T2"` to `some "T3"`. -/
theorem markDelivered_overwrites_deliveredAt_witness :
    (getScreenshot
        (markDelivered (addScreenshot { screenshots := [], knownProjects := [] }
          "proj" "img" "image/png" "hello" none Source.user "id1" "T1"
          ⟨none, none, none, none⟩).2 "id1" "T2") "id1" =
      some { (addScreenshot { screenshots := [], knownProjects := [] }
          "proj" "img" "image/png" "hello" none Source.user "id1" "T1"
          ⟨none, none, none, none⟩).1 with
          status := Status.delivered, deliveredAt := some "T2" }) ∧
    getScreenshot
        (markDelivered (markDelivered (addScreenshot
          { screenshots := [], knownProjects := [] }
          "proj" "img" "image/png" "hello" none Source.user "id1" "T1"
          ⟨none, none, none, none⟩).2 "id1" "T2") "id1" "T3") "id1" =
      some { (addScreenshot { screenshots := [], knownProjects := [] }
          "proj" "img" "image/png" "hello" none Source.user "id1" "T1"
          ⟨none, none, none, none⟩).1 with
          status := Status.delivered, deliveredAt := some "T3" } := by
  have h0 : getScreenshot (addScreenshot { screenshots := [], knownProjects := [] }
      "proj" "img" "image/png" "hello" none Source.user "id1" "T1"
      ⟨none, none, none, none⟩).2 "id1" =
      some (addScreenshot { screenshots := [], knownProjects := [] }
      "proj" "img" "image/png" "hello" none Source.user "id1" "T1"
      ⟨none, none, none, none⟩).1 := by decide
  have h1 := (markDelivered_overwrites_deliveredAt _ "id1" "T2" _ h0).1
  exact ⟨h1, (markDelivered_overwrites_deliveredAt _ "id1" "T3" _ h1).1⟩

/-- C3: project isolation — a listing for project `A` contains only records
whose immutable `projectId` is `A` (so never a record created under a
different project `B`), and clearing project `A` leaves project `B`'s record
count unchanged. -/
theorem project_isolation (st : Store) (A B : String) (hAB : A ≠ B) :
    (∀ r ∈ listScreenshots st A, r.projectId = A ∧ r.projectId ≠ B) ∧
    countProject (clearAll st A).2 B = countProject st B := by
  constructor
  · intro r hr
    rcases List.mem_map.mp hr with ⟨s, hs, rfl⟩
    have hs' := (List.mem_insertionSort createdDesc).mp hs
    have hA : s.projectId = A := by simpa using (List.mem_filter.mp hs').2
    refine ⟨hA, ?_⟩
    simp only [toMeta, hA]
    exact hAB
  · have key : ∀ l : List Screenshot,
        List.filter (fun s => s.projectId == B)
            (List.filter (fun s => !(s.projectId == A)) l) =
          List.filter (fun s => s.projectId == B) l := by
      intro l
      induction l with
      | nil => rfl
      | cons a l ih =>
        rw [List.filter_cons, List.filter_cons]
        by_cases hB : (a.projectId == B) = true
        · have hA' : (!(a.projectId == A)) = true := by
            simp only [beq_iff_eq] at hB
            simp only [Bool.not_eq_true', beq_eq_false_iff_ne, hB]
            exact fun hcontra => hAB hcontra.symm
          rw [if_pos hA', List.filter_cons, if_pos hB, if_pos hB, ih]
        · by_cases hA' : (!(a.projectId == A)) = true
          · rw [if_pos hA', List.filter_cons, if_neg hB, if_neg hB, ih]
          · rw [if_neg hA', if_neg hB, ih]
    unfold countProject clearAll
    simp only
    rw [key st.screenshots]

/-- C3 witness: with projects "a" ≠ "b" on a two-record store, listing "a"
avoids "b" and clearing "a" keeps "b"'s count. -/
theorem project_isolation_witness :
    ("a" : String) ≠ "b" ∧
    ((∀ r ∈ listScreenshots (addScreenshot (addScreenshot
        { screenshots := [], knownProjects := [] }
        "a" "img" "image/png" "pa" none Source.user "id1" "T1"
        ⟨none, none, none, none⟩).2
        "b" "img" "image/png" "pb" none Source.user "id2" "T2"
        ⟨none, none, none, none⟩).2 "a", r.projectId = "a" ∧ r.projectId ≠ "b") ∧
      countProject (clearAll (addScreenshot (addScreenshot
        { screenshots := [], knownProjects := [] }
        "a" "img" "image/png" "pa" none Source.user "id1" "T1"
        ⟨none, none, none, none⟩).2
        "b" "img" "image/png" "pb" none Source.user "id2" "T2"
        ⟨none, none, none, none⟩).2 "a").2 "b" =
      countProject (addScreenshot (addScreenshot
        { screenshots := [], knownProjects := [] }
        "a" "img" "image/png" "pa" none Source.user "id1" "T1"
        ⟨none, none, none, none⟩).2
        "b" "img" "image/png" "pb" none Source.user "id2" "T2"
        ⟨none, none, none, none⟩).2 "b") :=
  ⟨by decide, project_isolation _ "a" "b" (by decide)⟩

/-- C9: `clearAll` removes every record of the project but never unregisters
it: afterwards `isNewProject` is still `false` and `getProjects` still lists
the project, so the one-time "project created" signal cannot fire again. -/
theorem clearAll_keeps_project_known (st : Store) (p : String)
    (hp : p ∈ st.knownProjects) :
    isNewProject (clearAll st p).2 p = false ∧
    p ∈ getProjects (clearAll st p).2 ∧
    ∀ s ∈ (clearAll st p).2.screenshots, s.projectId ≠ p := by
  refine ⟨?_, ?_, ?_⟩
  · simp [isNewProject, clearAll, hp]
  · have : (clearAll st p).2.knownProjects = st.knownProjects := rfl
    unfold getProjects
    rw [this]
    exact (List.mem_insertionSort (fun a b => a ≤ b)).mpr hp
  · intro s hs
    have := (List.mem_filter.mp hs).2
    simpa using this

/-- C9 witness: after clearing a concrete known project, it stays known. -/
theorem clearAll_keeps_project_known_witness :
    "proj" ∈ (addScreenshot { screenshots := [], knownProjects := [] }
      "proj" "img" "image/png" "hello" none Source.user "id1" "T1"
      ⟨none, none, none, none⟩).2.knownProjects ∧
    (isNewProject (clearAll (addScreenshot
        { screenshots := [], knownProjects := [] }
        "proj" "img" "image/png" "hello" none Source.user "id1" "T1"
        ⟨none, none, none, none⟩).2 "proj").2 "proj" = false ∧
      "proj" ∈ getProjects (clearAll (addScreenshot
        { screenshots := [], knownProjects := [] }
        "proj" "img" "image/png" "hello" none Source.user "id1" "T1"
        ⟨none, none, none, none⟩).2 "proj").2 ∧
      ∀ s ∈ (clearAll (addScreenshot
        { screenshots := [], knownProjects := [] }
        "proj" "img" "image/png" "hello" none Source.user "id1" "T1"
        ⟨none, none, none, none⟩).2 "proj").2.screenshots, s.projectId ≠ "proj") :=
  ⟨by decide, clearAll_keeps_project_known _ "proj" (by decide)⟩

/-- C2: `getPending p` returns exactly the pending records of project `p`
(membership), sorted oldest-created first, and in any reachable store state
no agent-sourced record ever appears in the result (agent records are
created delivered and no operation ever reverts a status to pending). -/
theorem getPending_exactly_pending (st : Store) (p : String) (h : Reachable st) :
    (∀ s, s ∈ getPending st p ↔
      (s ∈ st.screenshots ∧ s.projectId = p ∧ s.status = Status.pending)) ∧
    (getPending st p).Sorted createdAsc ∧
    (∀ s ∈ getPending st p, s.source ≠ Source.agent) := by
  refine ⟨?_, ?_, ?_⟩
  · intro s
    unfold getPending
    rw [List.mem_insertionSort, List.mem_filter]
    simp [and_assoc]
  · exact List.sorted_insertionSort createdAsc _
  · intro s hs hagent
    have hmem := (List.mem_insertionSort createdAsc).mp hs
    have hf := List.mem_filter.mp hmem
    have hpend : s.status = Status.pending := by
      have := hf.2
      simp at this
      exact this.2
    have hdeliv := (reachable_storeWF h s hf.1).1 hagent
    rw [hpend] at hdeliv
    exact Status.noConfusion hdeliv

/-- A concrete reachable store with one user-sourced record, used as a
witness input. -/
def oneUserStore : Store :=
  (addScreenshot { screenshots := [], knownProjects := [] }
    "proj" "img" "image/png" "hello" none Source.user "id1" "T1"
    ⟨none, none, none, none⟩).2

/-- C2 witness: the pending listing of a concrete reachable store. -/
theorem getPending_exactly_pending_witness :
    Reachable oneUserStore ∧
    ((∀ s, s ∈ getPending oneUserStore "proj" ↔
        (s ∈ oneUserStore.screenshots ∧ s.projectId = "proj" ∧
          s.status = Status.pending)) ∧
      (getPending oneUserStore "proj").Sorted createdAsc ∧
      (∀ s ∈ getPending oneUserStore "proj", s.source ≠ Source.agent)) :=
  ⟨Reachable.add _ _ _ _ _ _ _ _ _ _ Reachable.empty,
    getPending_exactly_pending oneUserStore "proj"
      (Reachable.add _ _ _ _ _ _ _ _ _ _ Reachable.empty)⟩

/-- Filter criteria of store.ts `FilterOptions`, extended with the spec's
`textQuery` criterion (named `q` in the store unit tests), which is part of
the current store interface missing from the snapshot's stale store.ts. -/
structure FilterOptions where
  branch : Option String
  commit : Option String
  since : Option String
  untilOpt : Option String
  status : Option Status
  textQuery : Option String
  deriving DecidableEq, Repr

/-- Apply one optional string-valued filter criterion, skipping it when the
option is absent or empty (JS truthiness of `if (opts.x)`). -/
def applyStrFilter (o : Option String) (f : String → Screenshot → Bool)
    (l : List Screenshot) : List Screenshot :=
  match o with
  | some v => if v == "" then l else l.filter (f v)
  | none => l

/-- Criterion `s.git?.branch === opts.branch`. -/
def branchMatches (b : String) (s : Screenshot) : Bool :=
  match s.git with
  | some g => g.branch == some b
  | none => false

/-- Criterion `s.git?.commit === opts.commit || s.git?.commitShort ===
opts.commit` (full or abbreviated hash). -/
def commitMatches (c : String) (s : Screenshot) : Bool :=
  match s.git with
  | some g => g.commit == some c || g.commitShort == some c
  | none => false

/-- Criterion `new Date(s.createdAt).getTime() >= new
Date(opts.since).getTime()`; on the store's fixed-format ISO-8601 UTC
timestamps the epoch comparison coincides with lexicographic order. -/
def sinceMatches (v : String) (s : Screenshot) : Bool :=
  decide (v ≤ s.createdAt)

/-- Criterion `new Date(s.createdAt).getTime() <= new
Date(opts.until).getTime()`, modelled like `sinceMatches`. -/
def untilMatches (v : String) (s : Screenshot) : Bool :=
  decide (s.createdAt ≤ v)

/-- Character-wise lowercasing of a string's characters (the effect of JS
`String.prototype.toLowerCase` on the text handled by the store). -/
def lowerData (s : String) : List Char :=
  s.data.map Char.toLower

/-- Contiguous-substring test on character lists (the semantics of JS
`String.prototype.includes`). -/
def containsSeq (needle : List Char) : List Char → Bool
  | [] => needle.isEmpty
  | c :: rest => needle.isPrefixOf (c :: rest) || containsSeq needle rest

/-- Modelled from the spec: the `textQuery` criterion matches
case-insensitively (substring) against `promptText` and `description`; the
store unit tests exercise it under the name `q`, matching either the prompt
or a saved description. -/
def matchesText (s : Screenshot) (q : String) : Bool :=
  containsSeq (lowerData q) (lowerData s.prompt) ||
    (match s.description with
     | some d => containsSeq (lowerData q) (lowerData d)
     | none => false)

/-- store.ts `filterScreenshots`: conjunctive filters over one project's
records, newest-created first, without the image payload.  The
`branch`/`commit`/`since`/`until`/`status` criteria are translated from the
snapshot's store.ts; the `textQuery` criterion is modelled from the spec. -/
def filterScreenshots (st : Store) (projectId : String) (opts : FilterOptions) :
    List ScreenshotMeta :=
  let items0 := st.screenshots.filter (fun s => s.projectId == projectId)
  let items1 := applyStrFilter opts.branch branchMatches items0
  let items2 := applyStrFilter opts.commit commitMatches items1
  let items3 := applyStrFilter opts.since sinceMatches items2
  let items4 := applyStrFilter opts.untilOpt untilMatches items3
  let items5 := match opts.status with
    | some st0 => items4.filter (fun s => s.status == st0)
    | none => items4
  let items6 := applyStrFilter opts.textQuery (fun q s => matchesText s q) items5
  (items6.insertionSort createdDesc).map toMeta

/-- C4: on a project holding exactly three records with prompts "login bug",
"login fix" and "dashboard" (the last with no saved description), filtering
with `textQuery = "login"` returns exactly the first two records. -/
theorem textQuery_returns_matching (st : Store) (p : String) (r1 r2 r3 : Screenshot)
    (hst : st.screenshots = [r1, r2, r3])
    (h1 : r1.prompt = "login bug") (h2 : r2.prompt = "login fix")
    (h3 : r3.prompt = "dashboard")
    (hp1 : r1.projectId = p) (hp2 : r2.projectId = p) (hp3 : r3.projectId = p)
    (hd3 : r3.description = none) :
    (filterScreenshots st p
        { branch := none, commit := none, since := none, untilOpt := none,
          status := none, textQuery := some "login" }).Perm
      [toMeta r1, toMeta r2] := by
  have m1 : matchesText r1 "login" = true := by
    unfold matchesText
    rw [h1]
    rw [show containsSeq (lowerData "login") (lowerData "login bug") = true by decide]
    rw [Bool.true_or]
  have m2 : matchesText r2 "login" = true := by
    unfold matchesText
    rw [h2]
    rw [show containsSeq (lowerData "login") (lowerData "login fix") = true by decide]
    rw [Bool.true_or]
  have m3 : matchesText r3 "login" = false := by
    unfold matchesText
    rw [h3, hd3]
    decide
  unfold filterScreenshots applyStrFilter
  simp only [hst]
  have e1 : List.filter (fun s => s.projectId == p) [r1, r2, r3] = [r1, r2, r3] := by
    simp [List.filter_cons, hp1, hp2, hp3]
  rw [e1]
  have e2 : List.filter (fun s => matchesText s "login") [r1, r2, r3] = [r1, r2] := by
    simp [List.filter_cons, m1, m2, m3]
  rw [show (("login" : String) == "") = false by decide]
  simp only [Bool.false_eq_true, if_false, e2]
  exact (List.perm_insertionSort createdDesc [r1, r2]).map toMeta

/-- A record with prompt "login bug", first of the three-record witness
store. -/
def loginBugRec : Screenshot :=
  { id := "1", projectId := "p", prompt := "login bug", description := none,
    annotations := none, imageBase64 := "", mimeType := "image/png",
    status := Status.pending, source := Source.user, createdAt := "T1",
    deliveredAt := none, git := none }

/-- A record with prompt "login fix". -/
def loginFixRec : Screenshot :=
  { loginBugRec with id := "2", prompt := "login fix", createdAt := "T2" }

/-- A record with prompt "dashboard". -/
def dashboardRec : Screenshot :=
  { loginBugRec with id := "3", prompt := "dashboard", createdAt := "T3" }

/-- A store holding exactly the three witness records under project "p". -/
def threeRecStore : Store :=
  { screenshots := [loginBugRec, loginFixRec, dashboardRec], knownProjects := ["p"] }

/-- C4 witness: the text-query filter on the concrete three-record store. -/
theorem textQuery_returns_matching_witness :
    (threeRecStore.screenshots = [loginBugRec, loginFixRec, dashboardRec] ∧
      loginBugRec.prompt = "login bug" ∧ loginFixRec.prompt = "login fix" ∧
      dashboardRec.prompt = "dashboard" ∧
      loginBugRec.projectId = "p" ∧ loginFixRec.projectId = "p" ∧
      dashboardRec.projectId = "p" ∧ dashboardRec.description = none) ∧
    (filterScreenshots threeRecStore "p"
        { branch := none, commit := none, since := none, untilOpt := none,
          status := none, textQuery := some "login" }).Perm
      [toMeta loginBugRec, toMeta loginFixRec] :=
  ⟨⟨rfl, rfl, rfl, rfl, rfl, rfl, rfl, rfl⟩,
    textQuery_returns_matching threeRecStore "p" loginBugRec loginFixRec dashboardRec
      rfl rfl rfl rfl rfl rfl rfl rfl⟩

/-- State of the WebSocket layer (src/ws.ts): whether `setupWebSocket` has
run, how many display surfaces (browser clients) are connected, and the keys
of the `pendingRequests` map.  A `requestId` is in `pending` exactly while
its entry — resolve/reject callback pair plus its `setTimeout` timer — is
registered and the timer is uncancelled: the code always deletes the entry
and settles its promise together (`clearTimeout` + `delete` + settle on a
response; `delete` + reject in the timer callback). -/
structure WsState where
  initialized : Bool
  clients : Nat
  pending : List String
  deriving DecidableEq, Repr

/-- Immediate outcome of a `sendAndWait` call. -/
inductive SendStart where
  | rejectedNoBrowser
  | registered
  deriving DecidableEq, Repr

/-- Result of starting a `sendAndWait` call: the immediate outcome, the new
state, and the broadcast messages emitted (event names). -/
structure SendResult where
  outcome : SendStart
  state : WsState
  broadcasts : List String
  deriving DecidableEq, Repr

/-- ws.ts `sendAndWait`, up to its first suspension: with no initialized
server or zero connected clients it rejects at once ("No browser
connected"), touching nothing; otherwise it starts the deadline timer,
registers the pending entry under the fresh `requestId`, and broadcasts the
event with the `requestId` attached. -/
def sendAndWait (st : WsState) (event : String) (requestId : String) : SendResult :=
  if !st.initialized || st.clients == 0 then
    { outcome := SendStart.rejectedNoBrowser, state := st, broadcasts := [] }
  else
    { outcome := SendStart.registered,
      state := { st with pending := st.pending ++ [requestId] },
      broadcasts := [event] }

/-- How a pending correlation entry was settled. -/
inductive Settlement where
  | resolved (requestId : String)
  | rejectedError (requestId : String)
  | rejectedTimeout (requestId : String)
  deriving DecidableEq, Repr

/-- The `requestId` a settlement belongs to. -/
def settleId : Settlement → String
  | Settlement.resolved r => r
  | Settlement.rejectedError r => r
  | Settlement.rejectedTimeout r => r

/-- Events acting on the WebSocket state: an inbound `canvas:result` message
carrying a `requestId` (with or without an error payload), a deadline timer
firing, and a new `sendAndWait` call registering a fresh `requestId`. -/
inductive WsEvent where
  | response (requestId : String) (isError : Bool)
  | timerFire (requestId : String)
  | send (requestId : String)
  deriving DecidableEq, Repr

/-- One step of the ws.ts event handlers.  A response settles and removes
the entry iff the `requestId` is still pending (`pendingRequests.get`
succeeded), cancelling its timer; a response for an absent `requestId` is
ignored.  A timer can only fire while its entry is still pending (otherwise
it was cancelled by `clearTimeout`), and then rejects with the timeout
error and removes the entry; `timerFire` for an absent id is a no-op,
modelling that a cancelled timer never runs. -/
def wsStep (st : WsState) (e : WsEvent) : WsState × List Settlement :=
  match e with
  | WsEvent.response r isErr =>
    if st.pending.contains r then
      ({ st with pending := st.pending.erase r },
        [if isErr then Settlement.rejectedError r else Settlement.resolved r])
    else (st, [])
  | WsEvent.timerFire r =>
    if st.pending.contains r then
      ({ st with pending := st.pending.erase r }, [Settlement.rejectedTimeout r])
    else (st, [])
  | WsEvent.send r => ((sendAndWait st "canvas:execute" r).state, [])

/-- Run a sequence of events, collecting the settlements in order. -/
def wsRun (st : WsState) : List WsEvent → WsState × List Settlement
  | [] => (st, [])
  | e :: evs =>
    let p := wsStep st e
    let q := wsRun p.1 evs
    (q.1, p.2 ++ q.2)

/-- Number of settlements of the given `requestId` in a settlement log. -/
def settledCount (r : String) (log : List Settlement) : Nat :=
  (log.filter (fun x => settleId x == r)).length

/-- C6: `sendAndWait` with zero connected display surfaces rejects
immediately: no broadcast is emitted, and the state — in particular the
pending correlation map and its timers — is untouched. -/
theorem sendAndWait_no_clients (st : WsState) (event requestId : String)
    (h : st.clients = 0) :
    sendAndWait st event requestId =
      { outcome := SendStart.rejectedNoBrowser, state := st, broadcasts := [] } := by
  unfold sendAndWait
  rw [h]
  simp

/-- C6 witness: a concrete initialized state with zero clients. -/
theorem sendAndWait_no_clients_witness :
    (WsState.mk true 0 []).clients = 0 ∧
    sendAndWait (WsState.mk true 0 []) "canvas:execute" "r1" =
      { outcome := SendStart.rejectedNoBrowser, state := WsState.mk true 0 [],
        broadcasts := [] } :=
  ⟨rfl, sendAndWait_no_clients (WsState.mk true 0 []) "canvas:execute" "r1" rfl⟩

theorem wsStep_count (st : WsState) (e : WsEvent) (r : String)
    (hr : ∀ rid, e = WsEvent.send rid → rid ≠ r) :
    (wsStep st e).1.pending.count r + settledCount r (wsStep st e).2 =
      st.pending.count r := by
  cases e with
  | response r' isErr =>
    simp only [wsStep]
    by_cases hc : (st.pending.contains r') = true
    · rw [if_pos hc]
      have hmem : r' ∈ st.pending := List.elem_iff.mp hc
      by_cases hrr : r' = r
      · subst hrr
        have hpos : st.pending.count r' ≠ 0 := fun h0 =>
          (List.count_eq_zero.mp h0) hmem
        have herase := List.count_erase_self r' st.pending
        have hlog : settledCount r' [if isErr then Settlement.rejectedError r'
            else Settlement.resolved r'] = 1 := by
          cases isErr <;> simp [settledCount, settleId]
        simp only [hlog, herase]
        omega
      · have herase := List.count_erase_of_ne (fun h => hrr h.symm) st.pending
        have hlog : settledCount r [if isErr then Settlement.rejectedError r'
            else Settlement.resolved r'] = 0 := by
          cases isErr <;> simp [settledCount, settleId, hrr]
        simp only [hlog, herase, Nat.add_zero]
    · rw [if_neg hc]
      simp [settledCount]
  | timerFire r' =>
    simp only [wsStep]
    by_cases hc : (st.pending.contains r') = true
    · rw [if_pos hc]
      have hmem : r' ∈ st.pending := List.elem_iff.mp hc
      by_cases hrr : r' = r
      · subst hrr
        have hpos : st.pending.count r' ≠ 0 := fun h0 =>
          (List.count_eq_zero.mp h0) hmem
        have herase := List.count_erase_self r' st.pending
        simp only [settledCount, List.filter, settleId, beq_self_eq_true,
          List.length_cons, List.length_nil, herase]
        omega
      · have herase := List.count_erase_of_ne (fun h => hrr h.symm) st.pending
        have hlog : settledCount r [Settlement.rejectedTimeout r'] = 0 := by
          simp [settledCount, settleId, hrr]
        simp only [hlog, herase, Nat.add_zero]
    · rw [if_neg hc]
      simp [settledCount]
  | send r' =>
    have hne : r' ≠ r := hr r' rfl
    simp only [wsStep, sendAndWait]
    by_cases hc : (!st.initialized || st.clients == 0) = true
    · rw [if_pos hc]
      simp [settledCount]
    · rw [if_neg hc]
      simp only [settledCount, List.filter_nil, List.length_nil, Nat.add_zero]
      have h0 : List.count r [r'] = 0 := by
        rw [List.count_eq_zero]
        simp only [List.mem_singleton]
        exact fun h => hne h.symm
      rw [List.count_append]
      simp [h0]

theorem wsRun_count_conserved (r : String) (evs : List WsEvent) :
    ∀ st : WsState, (∀ rid, WsEvent.send rid ∈ evs → rid ≠ r) →
      (wsRun st evs).1.pending.count r + settledCount r (wsRun st evs).2 =
        st.pending.count r := by
  induction evs with
  | nil => intro st _; simp [wsRun, settledCount]
  | cons e evs ih =>
    intro st hsend
    have hsend' : ∀ rid, WsEvent.send rid ∈ evs → rid ≠ r := fun rid hmem =>
      hsend rid (List.mem_cons_of_mem e hmem)
    have hstep := wsStep_count st e r (fun rid heq =>
      hsend rid (heq ▸ List.mem_cons_self e evs))
    have hrun := ih (wsStep st e).1 hsend'
    unfold wsRun
    simp only [settledCount, List.filter_append, List.length_append] at *
    omega

/-- C7: a pending correlation entry is terminated at most once along any
event sequence, and exactly once when it is no longer pending afterwards:
while the entry is pending, a matching response settles it (resolving, or
rejecting with the reported error) and a timer expiry rejects it with the
timeout settlement, each removing the entry; and a response for a
`requestId` that is no longer pending — in particular one arriving after
the timer fired — is ignored, changing nothing and settling nothing. -/
theorem correlation_settled_once (st : WsState) (evs : List WsEvent) (r : String)
    (hone : st.pending.count r = 1)
    (hfresh : ∀ rid, WsEvent.send rid ∈ evs → rid ≠ r) :
    settledCount r (wsRun st evs).2 ≤ 1 ∧
    (settledCount r (wsRun st evs).2 = 1 ↔ r ∉ (wsRun st evs).1.pending) ∧
    (∀ st' : WsState, r ∈ st'.pending →
      (wsStep st' (WsEvent.timerFire r)).2 = [Settlement.rejectedTimeout r]) ∧
    (∀ st' : WsState, ∀ isErr : Bool, r ∈ st'.pending →
      (wsStep st' (WsEvent.response r isErr)).2 =
        [if isErr then Settlement.rejectedError r else Settlement.resolved r]) ∧
    (∀ st' : WsState, ∀ isErr : Bool, r ∉ st'.pending →
      wsStep st' (WsEvent.response r isErr) = (st', [])) := by
  have hcons := wsRun_count_conserved r evs st hfresh
  rw [hone] at hcons
  refine ⟨by omega, ⟨?_, ?_⟩, ?_, ?_, ?_⟩
  · intro h1
    rw [h1] at hcons
    have : (wsRun st evs).1.pending.count r = 0 := by omega
    exact List.count_eq_zero.mp this
  · intro hnot
    have : (wsRun st evs).1.pending.count r = 0 := List.count_eq_zero.mpr hnot
    omega
  · intro st' hmem
    simp only [wsStep]
    rw [if_pos (List.elem_iff.mpr hmem)]
  · intro st' isErr hmem
    simp only [wsStep]
    rw [if_pos (List.elem_iff.mpr hmem)]
  · intro st' isErr hnot
    simp only [wsStep]
    rw [if_neg (fun hc => hnot (List.elem_iff.mp hc))]

/-- C7 witness: one pending entry "a", whose timer fires and whose response
then arrives late; the run settles it exactly once. -/
theorem correlation_settled_once_witness :
    (WsState.mk true 1 ["a"]).pending.count "a" = 1 ∧
    (∀ rid, WsEvent.send rid ∈
        [WsEvent.timerFire "a", WsEvent.response "a" false] → rid ≠ "a") ∧
    (settledCount "a" (wsRun (WsState.mk true 1 ["a"])
        [WsEvent.timerFire "a", WsEvent.response "a" false]).2 ≤ 1 ∧
      (settledCount "a" (wsRun (WsState.mk true 1 ["a"])
          [WsEvent.timerFire "a", WsEvent.response "a" false]).2 = 1 ↔
        "a" ∉ (wsRun (WsState.mk true 1 ["a"])
          [WsEvent.timerFire "a", WsEvent.response "a" false]).1.pending) ∧
      (∀ st' : WsState, "a" ∈ st'.pending →
        (wsStep st' (WsEvent.timerFire "a")).2 = [Settlement.rejectedTimeout "a"]) ∧
      (∀ st' : WsState, ∀ isErr : Bool, "a" ∈ st'.pending →
        (wsStep st' (WsEvent.response "a" isErr)).2 =
          [if isErr then Settlement.rejectedError "a" else Settlement.resolved "a"]) ∧
      (∀ st' : WsState, ∀ isErr : Bool, "a" ∉ st'.pending →
        wsStep st' (WsEvent.response "a" isErr) = (st', []))) := by
  have hfresh : ∀ rid, WsEvent.send rid ∈
      [WsEvent.timerFire "a", WsEvent.response "a" false] → rid ≠ "a" := by
    intro rid h
    simp at h
  exact ⟨by decide, hfresh,
    correlation_settled_once (WsState.mk true 1 ["a"]) _ "a" (by decide) hfresh⟩

/-- config.ts: byte budget for the base64 text, in KB. -/
def maxImageBase64KB : Nat := 750

/-- config.ts: maximum width/height before the proportional resize. -/
def maxImageDimension : Nat := 1920

/-- config.ts: starting JPEG quality. -/
def jpegQualityStart : Int := 85

/-- config.ts: floor JPEG quality. -/
def jpegQualityMin : Int := 30

/-- config.ts: quality decrement per re-encode. -/
def jpegQualityStep : Int := 10

/-- image.ts: `MAX_BASE64_BYTES = config.maxImageBase64KB * 1024`. -/
def MAX_BASE64_BYTES : Nat := maxImageBase64KB * 1024

/-- Abstraction of a decoded input image together with the opaque `sharp`
encoder: `width`/`height` are the decoded metadata (fields `sharp` could not
determine are `none`); `encQ q` is the base64 length produced by re-encoding
the dimension-capped pipeline as JPEG at quality `q`; `encS w h` is the
base64 length produced by re-encoding the original input resized to fit
`w × h` at the floor quality (the two re-encode forms appearing in
image.ts). -/
structure ImageInput where
  width : Option Nat
  height : Option Nat
  encQ : Int → Nat
  encS : Nat → Nat → Nat

/-- JS numeric truthiness of optional metadata (`metadata.width &&
metadata.height`): absent or zero is falsy. -/
def natTruthy : Option Nat → Bool
  | none => false
  | some n => !(n == 0)

/-- Result of the quality-descent loop: final quality, final base64 length,
and the number of re-encodes performed inside the loop. -/
structure QDResult where
  quality : Int
  len : Nat
  steps : Nat

/-- The quality-descent loop of image.ts: while the output exceeds the byte
budget and the quality is above the floor, decrement the quality by the step
and re-encode (always from the resized source, never from prior JPEG
output).  `steps` counts the loop's re-encodes. -/
def qualityDescent (encQ : Int → Nat) (q : Int) (len : Nat) : QDResult :=
  if h : MAX_BASE64_BYTES < len ∧ jpegQualityMin < q then
    let r := qualityDescent encQ (q - jpegQualityStep) (encQ (q - jpegQualityStep))
    { quality := r.quality, len := r.len, steps := r.steps + 1 }
  else
    { quality := q, len := len, steps := 0 }
termination_by (q - jpegQualityMin).toNat
decreasing_by
  simp only [jpegQualityMin, jpegQualityStep] at *
  omega

theorem qualityDescent_steps_le (encQ : Int → Nat) :
    ∀ (n : Nat) (q : Int) (len : Nat), (q - jpegQualityMin).toNat ≤ n →
      (qualityDescent encQ q len).steps ≤ ((q - jpegQualityMin).toNat + 9) / 10 := by
  intro n
  induction n with
  | zero =>
    intro q len hle
    unfold qualityDescent
    split
    · rename_i h
      exfalso
      simp only [jpegQualityMin] at *
      omega
    · simp
  | succ n ih =>
    intro q len hle
    unfold qualityDescent
    split
    · rename_i h
      have hrec := ih (q - jpegQualityStep) (encQ (q - jpegQualityStep)) (by
        simp only [jpegQualityMin, jpegQualityStep] at *
        omega)
      dsimp only
      simp only [jpegQualityMin, jpegQualityStep] at *
      omega
    · simp

/-- Result of the scale-down loop: final base64 length and the number of
re-encodes performed. -/
structure SDResult where
  len : Nat
  steps : Nat

/-- The fractional scale-down loop of image.ts, with the scale factor in
exact tenths (`scale = tenths / 10`): starting at 0.8, while the output
exceeds the budget and the scale is above 0.2, re-encode at the current
scale and floor quality, then lower the scale by 0.1.  The source decrements
an IEEE double, whose accumulated rounding can admit one extra iteration
near 0.2; the loop is modelled in exact arithmetic, which changes the
iteration count by at most that off-by-one and leaves it bounded either
way. -/
def scaleDescent (encS : Nat → Nat) (tenths : Nat) (len : Nat) : SDResult :=
  if h : MAX_BASE64_BYTES < len ∧ 2 < tenths then
    let len2 := encS tenths
    let r := scaleDescent encS (tenths - 1) len2
    { len := r.len, steps := r.steps + 1 }
  else
    { len := len, steps := 0 }
termination_by tenths
decreasing_by omega

theorem scaleDescent_steps_le (encS : Nat → Nat) :
    ∀ (tenths : Nat) (len : Nat), (scaleDescent encS tenths len).steps ≤ tenths - 2 := by
  intro tenths
  induction tenths using Nat.strong_induction_on with
  | _ tenths ih =>
    intro len
    unfold scaleDescent
    split
    · rename_i h
      dsimp only
      have hrec := ih (tenths - 1) (by omega) (encS tenths)
      omega
    · simp

/-- The dimension cap `metadata.width > maxDim ? maxDim : metadata.width`
applied inside the scale-down loop. -/
def capDim (d : Nat) : Nat :=
  if maxImageDimension < d then maxImageDimension else d

/-- `Math.round(x / 10)` for a non-negative numerator, used to model
`Math.round(cappedDim * scale)` with the scale in tenths. -/
def roundTenth (x : Nat) : Nat :=
  (x + 5) / 10

/-- The normalizer's output: base64 text length, declared mime type, and the
total number of JPEG re-encodes performed. -/
structure ProcessedImage where
  base64Len : Nat
  mimeType : String
  encodeSteps : Nat

/-- image.ts `processImage` after decoding: one initial encode at the
starting quality, the quality-descent loop, and — if the result still
exceeds the budget and both dimensions are known and non-zero — the
fractional scale-down loop from scale 0.8.  The output is always tagged
`"image/jpeg"` and is returned even when it still exceeds the budget. -/
def processImage (inp : ImageInput) : ProcessedImage :=
  let len0 := inp.encQ jpegQualityStart
  let r1 := qualityDescent inp.encQ jpegQualityStart len0
  if MAX_BASE64_BYTES < r1.len ∧ (natTruthy inp.width && natTruthy inp.height) = true then
    let r2 := scaleDescent
      (fun t => inp.encS (roundTenth (capDim (inp.width.getD 0) * t))
        (roundTenth (capDim (inp.height.getD 0) * t))) 8 r1.len
    { base64Len := r2.len, mimeType := "image/jpeg", encodeSteps := 1 + r1.steps + r2.steps }
  else
    { base64Len := r1.len, mimeType := "image/jpeg", encodeSteps := 1 + r1.steps }

/-- The data-URL entry point of image.ts: an input that does not decode
(`data:image/...;base64,` parse failure) throws "Invalid data URL format"
before any encoding; a decodable input runs the pipeline. -/
def processImageFromDataUrl (decoded : Option ImageInput) :
    Except String ProcessedImage :=
  match decoded with
  | none => Except.error "Invalid data URL format"
  | some inp => Except.ok (processImage inp)

/-- C5: on every decodable input the normalizer returns an output — tagged
JPEG, even when the result still exceeds the byte budget — after at most 13
re-encodes: 1 initial encode, at most 6 quality-descent steps (85 down to 25
by 10 against the floor 30) and at most 6 scale-down steps (0.8 down to 0.3
by 0.1 against the floor 0.2), the bounds being fixed by the configured
start/floor/step values. -/
theorem processImage_terminates_bounded (inp : ImageInput) :
    ∃ out : ProcessedImage, processImageFromDataUrl (some inp) = Except.ok out ∧
      out.encodeSteps ≤ 13 ∧ out.mimeType = "image/jpeg" := by
  refine ⟨processImage inp, rfl, ?_, ?_⟩
  · have h1 := qualityDescent_steps_le inp.encQ
      (jpegQualityStart - jpegQualityMin).toNat jpegQualityStart
      (inp.encQ jpegQualityStart) (le_refl _)
    have hsix : ((jpegQualityStart - jpegQualityMin).toNat + 9) / 10 = 6 := by decide
    rw [hsix] at h1
    unfold processImage
    dsimp only
    split
    · dsimp only
      have h2 := scaleDescent_steps_le
        (fun t => inp.encS (roundTenth (capDim (inp.width.getD 0) * t))
          (roundTenth (capDim (inp.height.getD 0) * t))) 8
        (qualityDescent inp.encQ jpegQualityStart (inp.encQ jpegQualityStart)).len
      omega
    · dsimp only
      omega
  · unfold processImage
    dsimp only
    split <;> rfl

end Bridge
